import Mathlib

/-!
# Scan configuration rule: serialization, upsert and lifecycle adapter

A shallow embedding of

* `orcasecurity/api_client/scan_configuration.go` (the rule transfer object and
  `PutScanConfigurationRule`), and
* `orcasecurity/scan_configuration/resource_rule.go` (the resource model, `put`,
  `extractStrings` and the Create / Read / Update / Delete hooks),

followed by the properties established about them.

Conventions of the embedding.

* A Go slice or map is an `Option`: `none` is the nil value, `some xs` a non-nil value
  holding `xs`; `len` is `0` for both `none` and `some []`.
* A Go `string` and a Go `[]byte` are Lean `String`s.
* `types.String`, `types.Int64` and `types.Bool` of the plugin framework are three-state
  values: null, unknown, or known with a value.
* Effects are made explicit: functions that talk to the outside world return the list of
  requests handed to the transport and the list of rules handed to the upsert operation.
-/

namespace OrcaScanConfig

/-! ## Plugin-framework attribute values -/

/-- The framework's `types.String`. -/
inductive TString where
  | null
  | unknown
  | value (s : String)
  deriving DecidableEq, Repr

/-- The framework's `types.Int64`. -/
inductive TInt64 where
  | null
  | unknown
  | value (n : Int)
  deriving DecidableEq, Repr

/-- The framework's `types.Bool`. -/
inductive TBool where
  | null
  | unknown
  | value (b : Bool)
  deriving DecidableEq, Repr

/-- `types.String.IsNull`. -/
def TString.IsNull : TString → Bool
  | .null => true
  | _ => false

/-- `types.String.IsUnknown`. -/
def TString.IsUnknown : TString → Bool
  | .unknown => true
  | _ => false

/-- `types.String.ValueString`: the known value, or `""` for null and unknown. -/
def TString.ValueString : TString → String
  | .value s => s
  | _ => ""

/-- `types.Int64.ValueInt64`: the known value, or `0` for null and unknown. -/
def TInt64.ValueInt64 : TInt64 → Int
  | .value n => n
  | _ => 0

/-- `types.Bool.ValueBool`: the known value, or `false` for null and unknown. -/
def TBool.ValueBool : TBool → Bool
  | .value b => b
  | _ => false

/-- A Go slice: `none` is nil, `some xs` is a non-nil slice with elements `xs`. -/
abbrev Slice (α : Type) := Option (List α)

/-- Go's `len` on a slice. -/
def Slice.len {α : Type} : Slice α → Nat
  | none => 0
  | some xs => xs.length

/-- The elements a `range` loop visits (none for the nil slice). -/
def Slice.elems {α : Type} : Slice α → List α
  | none => []
  | some xs => xs

/-! ## `extractStrings` (resource_rule.go) -/

/-- One iteration of the loop body of `extractStrings`. -/
def extractStep (out : List String) (v : TString) : List String :=
  if !v.IsNull && !v.IsUnknown then out ++ [v.ValueString] else out

/-- `extractStrings`: starts from the non-nil empty slice `[]string{}` and appends the
value of every element that is neither null nor unknown. -/
def extractStrings (input : Slice TString) : Slice String :=
  some (input.elems.foldl extractStep [])

/-- The specification of `extractStrings` in the words of the claim: the string values
of the elements that are neither null nor unknown, in their original order. -/
def extractStringsSpec (input : Slice TString) : List String :=
  input.elems.filterMap fun v =>
    match v with
    | .value s => some s
    | _ => none

/-! ## JSON values and the decoder of `encoding/json` -/

/-- A JSON value tree, as `json.Unmarshal` builds it for an `interface{}` target. A number
is represented by its literal text; the members of an object are kept in key order, which
is the order `json.Marshal` writes a map in. -/
inductive JSON where
  | null
  | bool (b : Bool)
  | num (lit : String)
  | str (s : String)
  | arr (xs : List JSON)
  | obj (kvs : List (String × JSON))

/-- Lexicographic order on keys by code point, which is the byte order of their UTF-8
encodings that `json.Marshal` sorts map keys by. -/
def keyLess : List Char → List Char → Bool
  | _, [] => false
  | [], _ :: _ => true
  | a :: as, b :: bs =>
    if a.toNat < b.toNat then true
    else if b.toNat < a.toNat then false
    else keyLess as bs

/-- Insert into a map kept in key order; an existing key is overwritten. -/
def mapInsert (k : String) (v : JSON) : List (String × JSON) → List (String × JSON)
  | [] => [(k, v)]
  | (k', v') :: rest =>
    if k = k' then (k, v) :: rest
    else if keyLess k.data k'.data then (k, v) :: (k', v') :: rest
    else (k', v') :: mapInsert k v rest

/-- JSON insignificant whitespace. -/
def isWs (c : Char) : Bool :=
  c = ' ' || c = '\t' || c = '\n' || c = '\r'

/-- Drop leading whitespace. -/
def skipWs : List Char → List Char
  | [] => []
  | c :: cs => if isWs c then skipWs cs else c :: cs

/-- Value of a hexadecimal digit. -/
def hexVal (c : Char) : Option Nat :=
  if '0' ≤ c ∧ c ≤ '9' then some (c.toNat - '0'.toNat)
  else if 'a' ≤ c ∧ c ≤ 'f' then some (c.toNat - 'a'.toNat + 10)
  else if 'A' ≤ c ∧ c ≤ 'F' then some (c.toNat - 'A'.toNat + 10)
  else none

/-- Value of four hexadecimal digits. -/
def hex4 (a b c d : Char) : Option Nat :=
  match hexVal a, hexVal b, hexVal c, hexVal d with
  | some w, some x, some y, some z => some (((w * 16 + x) * 16 + y) * 16 + z)
  | _, _, _, _ => none

/-- The character a single-letter escape stands for. -/
def unescape (c : Char) : Option Char :=
  if c = '"' then some '"'
  else if c = '\\' then some '\\'
  else if c = '/' then some '/'
  else if c = 'b' then some (Char.ofNat 8)
  else if c = 'f' then some (Char.ofNat 12)
  else if c = 'n' then some '\n'
  else if c = 'r' then some '\r'
  else if c = 't' then some '\t'
  else none

/-- A decoded unit of a string literal: a character, or the code of a surrogate escape. -/
inductive StrUnit where
  | chr (c : Char)
  | sur (n : Nat)

/-- The units of a string literal's body, after the opening quote and up to the closing
one; `acc` holds the units read so far in reverse. Control characters and unknown escapes
are rejected. -/
def readUnits : List Char → List StrUnit → Option (List StrUnit × List Char)
  | [], _ => none
  | c :: rest, acc =>
    if c = '"' then some (acc.reverse, rest)
    else if c = '\\' then
      match rest with
      | [] => none
      | e :: rest1 =>
        if e = 'u' then
          match rest1 with
          | a :: b :: c1 :: d :: rest2 =>
            match hex4 a b c1 d with
            | none => none
            | some n =>
              if 0xD800 ≤ n ∧ n ≤ 0xDFFF then readUnits rest2 (StrUnit.sur n :: acc)
              else readUnits rest2 (StrUnit.chr (Char.ofNat n) :: acc)
          | _ => none
        else
          match unescape e with
          | none => none
          | some ch => readUnits rest1 (StrUnit.chr ch :: acc)
    else if c.toNat < 0x20 then none
    else readUnits rest (StrUnit.chr c :: acc)

/-- One step of joining surrogates: the state is the characters so far (in reverse) and a
high surrogate waiting for its low half. A surrogate without its partner becomes U+FFFD. -/
def joinStep (st : List Char × Option Nat) (u : StrUnit) : List Char × Option Nat :=
  let flushed : List Char :=
    match st.2 with
    | none => st.1
    | some _ => Char.ofNat 0xFFFD :: st.1
  match u with
  | StrUnit.chr c => (c :: flushed, none)
  | StrUnit.sur n =>
    match st.2 with
    | some hi =>
      if 0xDC00 ≤ n then
        (Char.ofNat (0x10000 + (hi - 0xD800) * 0x400 + (n - 0xDC00)) :: st.1, none)
      else (flushed, some n)
    | none =>
      if n ≤ 0xDBFF then (st.1, some n) else (Char.ofNat 0xFFFD :: st.1, none)

/-- The text a list of units stands for. -/
def joinUnits (us : List StrUnit) : String :=
  let st := us.foldl joinStep ([], none)
  match st.2 with
  | none => String.mk st.1.reverse
  | some _ => String.mk (Char.ofNat 0xFFFD :: st.1).reverse

/-- The body of a string literal, after the opening quote: the decoded text and the input
that follows the closing quote. -/
def parseStringBody (cs : List Char) : Option (String × List Char) :=
  match readUnits cs [] with
  | none => none
  | some (us, rest) => some (joinUnits us, rest)

/-- Split off the longest prefix of decimal digits. -/
def spanDigits : List Char → List Char × List Char
  | [] => ([], [])
  | c :: cs =>
    if c.isDigit then ((spanDigits cs).1.cons c, (spanDigits cs).2) else ([], c :: cs)

/-- The integer part of a number: a single `0`, or digits not starting with `0`. -/
def parseIntPart (cs : List Char) : Option (List Char × List Char) :=
  match cs with
  | [] => none
  | c :: rest =>
    if c = '0' then some (['0'], rest)
    else if c.isDigit then some (c :: (spanDigits rest).1, (spanDigits rest).2)
    else none

/-- An optional fraction: `.` followed by at least one digit. The result is the digits of
the fraction (none when there is no fraction) and the input that follows. -/
def parseFrac (cs : List Char) : Option (List Char × List Char) :=
  match cs with
  | c :: rest =>
    if c = '.' then
      match spanDigits rest with
      | ([], _) => none
      | (ds, rest1) => some (ds, rest1)
    else some ([], cs)
  | [] => some ([], [])

/-- An exponent as written: the letter, the sign character if any, and the digits. -/
structure ExpPart where
  letter : Char
  sign : Option Char
  digits : List Char

/-- An optional exponent: `e` or `E`, an optional sign, at least one digit. -/
def parseExp (cs : List Char) : Option (Option ExpPart × List Char) :=
  match cs with
  | c :: rest =>
    if c = 'e' ∨ c = 'E' then
      match rest with
      | s :: rest1 =>
        if s = '+' ∨ s = '-' then
          match spanDigits rest1 with
          | ([], _) => none
          | (ds, rest2) => some (some { letter := c, sign := some s, digits := ds }, rest2)
        else
          match spanDigits rest with
          | ([], _) => none
          | (ds, rest2) => some (some { letter := c, sign := none, digits := ds }, rest2)
      | [] => none
    else some (none, cs)
  | [] => some (none, [])

/-- The number a list of decimal digits denotes. -/
def digitsVal (ds : List Char) : Nat :=
  ds.foldl (fun n c => 10 * n + (c.toNat - '0'.toNat)) 0

/-- The least magnitude that `strconv.ParseFloat(s, 64)` rounds to infinity: half way
between the largest `float64`, `(2^53 - 1) * 2^971`, and `2^1024`, which is
`2^1024 - 2^970` (see `float64Limit_eq`), written out in decimal. -/
def float64Limit : Nat :=
  179769313486231580793728971405303415079934132710037826936173778980444968292764750946649017977587207096330286416692887910946555547851940402630657488671505820681908902000708383676273854845817711531764475730270069855571366959622842914819860834936475292719074168444365510704342711559699508093042880177904174497792

/-- Does the number `intDigits.fracDigits` times ten to the exponent lie outside the range
of `float64`, so that `strconv.ParseFloat` reports a range error. The magnitude is
compared exactly with `float64Limit`; numbers that underflow to zero are in range. -/
def overflowsFloat64 (intDigits fracDigits : List Char) (exp : Option ExpPart) : Bool :=
  let d := digitsVal (intDigits ++ fracDigits)
  let fl := fracDigits.length
  match exp with
  | none => decide (float64Limit * 10 ^ fl ≤ d)
  | some e =>
    let x := digitsVal e.digits
    if e.sign = some '-' then decide (float64Limit * 10 ^ (x + fl) ≤ d)
    else if fl ≤ x then decide (float64Limit ≤ d * 10 ^ (x - fl))
    else decide (float64Limit * 10 ^ (fl - x) ≤ d)

/-- A number literal as the scanner reads it: its text, and whether its value is outside
the range of `float64`. -/
structure NumberToken where
  lit : String
  overflow : Bool

/-- The characters of an exponent. -/
def ExpPart.chars (e : ExpPart) : List Char :=
  match e.sign with
  | none => e.letter :: e.digits
  | some s => e.letter :: s :: e.digits

/-- A number literal. -/
def parseNumber (cs : List Char) : Option (NumberToken × List Char) :=
  let (sign, cs1) :=
    match cs with
    | c :: rest => if c = '-' then (['-'], rest) else ([], cs)
    | [] => ([], [])
  match parseIntPart cs1 with
  | none => none
  | some (ip, cs2) =>
    match parseFrac cs2 with
    | none => none
    | some (fp, cs3) =>
      match parseExp cs3 with
      | none => none
      | some (ep, cs4) =>
        let fracChars := if fp = [] then [] else '.' :: fp
        let expChars :=
          match ep with
          | none => []
          | some e => e.chars
        some ({ lit := String.mk (sign ++ ip ++ fracChars ++ expChars),
                overflow := overflowsFloat64 ip fp ep }, cs4)

/-- Does `cs` start with the characters of `lit`; if so, what follows. -/
def stripLit : List Char → List Char → Option (List Char)
  | [], cs => some cs
  | _ :: _, [] => none
  | l :: ls, c :: cs => if l = c then stripLit ls cs else none

/-- The scanner of `encoding/json` gives up on more than this many open arrays and
objects (`maxNestingDepth`). -/
def maxNestingDepth : Nat := 10000

mutual
/-- One JSON value, preceded by optional whitespace. `conv` says whether numbers are
converted to `float64`, as decoding into an `interface{}` does: a number out of range is
then an error. The first `Nat` bounds the depth of the recursion (`parseText` starts it at
the input length plus one, and every nested call is paid for by a bracket, brace, colon or
comma of the input); `depth` is the number of arrays and objects open around the value. -/
def parseValue (conv : Bool) : Nat → Nat → List Char → Option (JSON × List Char)
  | 0, _, _ => none
  | fuel + 1, depth, cs =>
    match skipWs cs with
    | [] => none
    | c :: rest =>
      if c = '"' then
        match parseStringBody rest with
        | none => none
        | some (s, rest1) => some (JSON.str s, rest1)
      else if c = '[' then
        if maxNestingDepth ≤ depth then none
        else
          match skipWs rest with
          | [] => none
          | d :: rest1 =>
            if d = ']' then some (JSON.arr [], rest1)
            else parseElems conv fuel (depth + 1) (d :: rest1) []
      else if c = '{' then
        if maxNestingDepth ≤ depth then none
        else
          match skipWs rest with
          | [] => none
          | d :: rest1 =>
            if d = '}' then some (JSON.obj [], rest1)
            else parseMembers conv fuel (depth + 1) (d :: rest1) []
      else if c = 't' then
        match stripLit "rue".data rest with
        | none => none
        | some rest1 => some (JSON.bool true, rest1)
      else if c = 'f' then
        match stripLit "alse".data rest with
        | none => none
        | some rest1 => some (JSON.bool false, rest1)
      else if c = 'n' then
        match stripLit "ull".data rest with
        | none => none
        | some rest1 => some (JSON.null, rest1)
      else
        match parseNumber (c :: rest) with
        | none => none
        | some (tok, rest1) =>
          if conv && tok.overflow then none else some (JSON.num tok.lit, rest1)
/-- The elements of a non-empty array, up to and including the closing bracket; `acc`
holds the elements read so far in reverse. -/
def parseElems (conv : Bool) : Nat → Nat → List Char → List JSON → Option (JSON × List Char)
  | 0, _, _, _ => none
  | fuel + 1, depth, cs, acc =>
    match parseValue conv fuel depth cs with
    | none => none
    | some (v, rest) =>
      match skipWs rest with
      | [] => none
      | c :: rest1 =>
        if c = ',' then parseElems conv fuel depth rest1 (v :: acc)
        else if c = ']' then some (JSON.arr (v :: acc).reverse, rest1)
        else none
/-- The members of a non-empty object, up to and including the closing brace; `acc` is
the map built so far (a repeated key keeps its last value). -/
def parseMembers (conv : Bool) :
    Nat → Nat → List Char → List (String × JSON) → Option (JSON × List Char)
  | 0, _, _, _ => none
  | fuel + 1, depth, cs, acc =>
    match skipWs cs with
    | [] => none
    | q :: rest =>
      if q = '"' then
        match parseStringBody rest with
        | none => none
        | some (k, rest1) =>
          match skipWs rest1 with
          | [] => none
          | colon :: rest2 =>
            if colon = ':' then
              match parseValue conv fuel depth rest2 with
              | none => none
              | some (v, rest3) =>
                match skipWs rest3 with
                | [] => none
                | c :: rest4 =>
                  if c = ',' then parseMembers conv fuel depth rest4 (mapInsert k v acc)
                  else if c = '}' then some (JSON.obj (mapInsert k v acc), rest4)
                  else none
            else none
      else none
end

/-- A complete JSON text: one value, then only whitespace. -/
def parseText (conv : Bool) (text : String) : Option JSON :=
  match parseValue conv (text.length + 1) 0 text.data with
  | none => none
  | some (v, rest) =>
    match skipWs rest with
    | [] => some v
    | _ :: _ => none

/-- The value of a JSON text as the scanner sees it: syntax and nesting depth are checked,
numbers are left as written. -/
def parseJSON (text : String) : Option JSON :=
  parseText false text

/-- The value of a JSON text as `json.Unmarshal` decodes it into an `interface{}`: as
`parseJSON`, and every number must convert to a `float64`. -/
def unmarshalValue (text : String) : Option JSON :=
  parseText true text

/-- Go's `json.Valid`: the bytes are one well-formed JSON text. -/
def validJSON (text : String) : Bool :=
  (parseJSON text).isSome

/-! ## The encoder of `encoding/json`, as far as the two files use it -/

/-- A lower-case hexadecimal digit. -/
def hexDigit (n : Nat) : Char :=
  "0123456789abcdef".data.getD n '0'

/-- The `\u00XX` escape of a character below U+0100. -/
def escapeU00 (c : Char) : List Char :=
  ['\\', 'u', '0', '0', hexDigit (c.toNat / 16), hexDigit (c.toNat % 16)]

/-- How `json.Marshal` writes one character of a string: quotes, backslashes and control
characters are escaped (backspace and form feed by their short escapes, as Go 1.22 and
later write them), and so are `<`, `>`, `&`, U+2028 and U+2029. -/
def encodeChar (c : Char) : List Char :=
  if c = '"' then ['\\', '"']
  else if c = '\\' then ['\\', '\\']
  else if c = '\n' then ['\\', 'n']
  else if c = '\r' then ['\\', 'r']
  else if c = '\t' then ['\\', 't']
  else if c = Char.ofNat 8 then ['\\', 'b']
  else if c = Char.ofNat 12 then ['\\', 'f']
  else if c.toNat < 0x20 ∨ c = '<' ∨ c = '>' ∨ c = '&' then escapeU00 c
  else if c = Char.ofNat 0x2028 then "\\u2028".data
  else if c = Char.ofNat 0x2029 then "\\u2029".data
  else [c]

/-- How `json.Marshal` writes a Go string: the escaped characters between quotes. -/
def encodeString (s : String) : List Char :=
  '"' :: (s.data.flatMap encodeChar ++ ['"'])

/-- The bytes `json.Marshal` writes for a non-nil slice of strings: the string literals,
separated by commas, between brackets. -/
def stringsJSON (l : List String) : String :=
  String.mk ('[' :: ((l.map encodeString).intersperse [',']).flatten ++ [']'])

/-- `json.Marshal` applied to a `[]string`: `null` for the nil slice, else the array of
its strings. It has no failing case; the `Except` mirrors the `([]byte, error)` result
the caller inspects. -/
def jsonMarshalStrings (xs : Slice String) : Except String String :=
  match xs with
  | none => .ok "null"
  | some l => .ok (stringsJSON l)

/-- `json.Unmarshal(text, &m)` for a `map[string]interface{}` target `m` that holds the
empty map: text that is malformed, nested too deeply or holds a number outside the range
of `float64` is an error, an object fills the map, the literal `null` sets the map to
nil, and any other value is a type error. The error texts stand for the library's. -/
def jsonUnmarshalMap (text : String) : Except String (Option (List (String × JSON))) :=
  match unmarshalValue text with
  | none => .error "invalid JSON text"
  | some (JSON.obj kvs) => .ok (some kvs)
  | some JSON.null => .ok none
  | some _ => .error "json: cannot unmarshal value into Go value of type map[string]interface \x7b\x7d"

/-! ## The rule transfer object and its serialization (scan_configuration.go) -/

/-- The `data` member of the PUT response. -/
structure scanConfigurationRulePutResponseData where
  RuleID : String
  deriving DecidableEq, Repr

/-- The projection of the PUT response the client decodes: `status` and `data.rule_id`. -/
structure scanConfigurationRulePutResponse where
  Status : String
  Data : scanConfigurationRulePutResponseData
  deriving DecidableEq, Repr

/-- The rule transfer object. `Tags` is a `json.RawMessage` (bytes); the values of
`AdvancedSettings` (`interface{}` in the source) are JSON value trees. -/
structure ScanConfigurationRule where
  RuleID : String
  AssignedPolicies : Slice String
  Policies : Slice String
  RulePriority : Int
  RuleName : String
  RuleCreator : String
  LastModified : String
  Tags : Option String
  AdvancedSettings : Option (List (String × JSON))
  SelectorCloudAccounts : Slice String
  SelectorBusinessUnits : Slice String
  Feature : String
  Action : String
  IsEnabledRule : Bool
  IsDefaultRule : Bool
  IsOverridePackage : Bool
  ModifiedBy : String
  Organization : String

/-- The zero value of the transfer object. -/
def ScanConfigurationRule.zero : ScanConfigurationRule :=
  { RuleID := "", AssignedPolicies := none, Policies := none, RulePriority := 0,
    RuleName := "", RuleCreator := "", LastModified := "", Tags := none,
    AdvancedSettings := none, SelectorCloudAccounts := none,
    SelectorBusinessUnits := none, Feature := "", Action := "", IsEnabledRule := false,
    IsDefaultRule := false, IsOverridePackage := false, ModifiedBy := "",
    Organization := "" }

/-- The value of a member of a serialized document: an encoded value, or the bytes of a
`json.RawMessage` written through (compacted) as they are. -/
inductive DocValue where
  | json (v : JSON)
  | raw (bytes : String)

/-- A serialized JSON object: its members in the order they are written. -/
abbrev Doc := List (String × DocValue)

/-- Does the document have a member with this key. -/
def Doc.hasKey (doc : Doc) (k : String) : Prop :=
  k ∈ doc.map Prod.fst

/-- A `string` field tagged `omitempty`. -/
def omitString (k : String) (s : String) : Doc :=
  if s = "" then [] else [(k, DocValue.json (JSON.str s))]

/-- A `[]string` field tagged `omitempty`: left out when its length is zero. -/
def omitStrings (k : String) (xs : Slice String) : Doc :=
  if xs.len = 0 then [] else [(k, DocValue.json (JSON.arr (xs.elems.map JSON.str)))]

/-- A `bool` field tagged `omitempty`. -/
def omitBool (k : String) (b : Bool) : Doc :=
  if b then [(k, DocValue.json (JSON.bool true))] else []

/-- Go's `len` on a `map[string]interface{}`: `0` for the nil map. -/
def mapLen : Option (List (String × JSON)) → Nat
  | none => 0
  | some kvs => kvs.length

/-- The entries of a map (none for the nil map). -/
def mapEntries : Option (List (String × JSON)) → List (String × JSON)
  | none => []
  | some kvs => kvs

/-- A `map[string]interface{}` field tagged `omitempty`: left out when nil or empty. -/
def omitMap (k : String) (m : Option (List (String × JSON))) : Doc :=
  if mapLen m = 0 then [] else [(k, DocValue.json (JSON.obj (mapEntries m)))]

/-- A `json.RawMessage` field tagged `omitempty`: left out when it has no bytes; bytes
that are not valid JSON make the whole encoding fail. -/
def omitRaw (k : String) (b : Option String) : Except String Doc :=
  match b with
  | none => .ok []
  | some bytes =>
    if bytes = "" then .ok []
    else if validJSON bytes then .ok [(k, DocValue.raw bytes)]
    else .error "json: error calling MarshalJSON for type json.RawMessage"

/-- `json.Marshal(rule)`: the fields in declaration order under their struct tags. -/
def marshalRule (r : ScanConfigurationRule) : Except String Doc :=
  match omitRaw "tags" r.Tags with
  | .error e => .error e
  | .ok tags =>
    .ok (omitString "rule_id" r.RuleID
      ++ omitStrings "assigned_policies" r.AssignedPolicies
      ++ omitStrings "policies" r.Policies
      ++ [("rule_priority", DocValue.json (JSON.num (toString r.RulePriority)))]
      ++ [("rule_name", DocValue.json (JSON.str r.RuleName))]
      ++ omitString "rule_creator" r.RuleCreator
      ++ omitString "last_modified" r.LastModified
      ++ tags
      ++ omitMap "advanced_settings" r.AdvancedSettings
      ++ omitStrings "selector_cloud_accounts" r.SelectorCloudAccounts
      ++ omitStrings "selector_business_units" r.SelectorBusinessUnits
      ++ [("feature", DocValue.json (JSON.str r.Feature))]
      ++ [("action", DocValue.json (JSON.str r.Action))]
      ++ [("is_enabled_rule", DocValue.json (JSON.bool r.IsEnabledRule))]
      ++ [("is_default_rule", DocValue.json (JSON.bool r.IsDefaultRule))]
      ++ omitBool "is_override_package" r.IsOverridePackage
      ++ omitString "modified_by" r.ModifiedBy
      ++ omitString "organization" r.Organization)

/-! ## The upsert operation (scan_configuration.go) -/

/-- An HTTP request as `http.NewRequest` builds it: method, URL and body. -/
structure Request where
  method : String
  url : String
  body : Doc

/-- The response the shared request executor hands back: its body. -/
structure HTTPResponse where
  body : String
  deriving DecidableEq, Repr

/-- The API client. `APIEndpoint` is the field the source reads. The three functions stand
for code outside the two files: `urlError` is the error `http.NewRequest` reports for a
URL it cannot parse, `doRequest` the client's request executor, `readJSON` the
response's `ReadJSON` applied to a `scanConfigurationRulePutResponse`. -/
structure APIClient where
  APIEndpoint : String
  urlError : String → Option String
  doRequest : Request → Except String HTTPResponse
  readJSON : HTTPResponse → Except String scanConfigurationRulePutResponse

/-- What a call of `PutScanConfigurationRule` does: its `(result, error)` pair, and the
requests it handed to `doRequest`. -/
structure PutOutcome where
  result : Except String ScanConfigurationRule
  sent : List Request

/-- `PutScanConfigurationRule`. -/
def PutScanConfigurationRule (c : APIClient) (rule : ScanConfigurationRule) : PutOutcome :=
  let url := c.APIEndpoint ++ "/api/scan_configuration/rules"
  match marshalRule rule with
  | .error err => { result := .error err, sent := [] }
  | .ok payloadBytes =>
    match c.urlError url with
    | some err => { result := .error err, sent := [] }
    | none =>
      let req : Request := { method := "PUT", url := url, body := payloadBytes }
      match c.doRequest req with
      | .error err => { result := .error err, sent := [req] }
      | .ok resp =>
        match c.readJSON resp with
        | .error err => { result := .error err, sent := [req] }
        | .ok parsed =>
          if parsed.Data.RuleID = "" then
            { result := .error "no rule_id returned from Orca", sent := [req] }
          else
            { result := .ok { ScanConfigurationRule.zero with RuleID := parsed.Data.RuleID },
              sent := [req] }

/-! ## The lifecycle adapter (resource_rule.go) -/

/-- The resource model `scanConfigurationRuleModel`. -/
structure scanConfigurationRuleModel where
  ID : TString
  RuleName : TString
  RulePriority : TInt64
  IsEnabledRule : TBool
  IsDefaultRule : TBool
  Feature : TString
  Action : TString
  SelectorCloudAccounts : Slice TString
  SelectorBusinessUnits : Slice TString
  Tags : Slice TString
  Policies : Slice TString
  AdvancedSettingsJSON : TString
  deriving DecidableEq, Repr

/-- Severity of a diagnostic. -/
inductive Severity where
  | error
  | warning
  deriving DecidableEq, Repr

/-- A framework diagnostic: severity, summary and detail. -/
structure Diagnostic where
  severity : Severity
  summary : String
  detail : String
  deriving DecidableEq, Repr

/-- The framework's `diag.Diagnostics`. -/
abbrev Diagnostics := List Diagnostic

/-- `Diagnostics.AddError`: appends an error diagnostic unless an equal one is already
in the collection. -/
def Diagnostics.AddError (diags : Diagnostics) (summary detail : String) : Diagnostics :=
  if { severity := Severity.error, summary := summary, detail := detail } ∈ diags then diags
  else diags ++ [{ severity := Severity.error, summary := summary, detail := detail }]

/-- `Diagnostics.HasError`. -/
def Diagnostics.HasError (diags : Diagnostics) : Bool :=
  diags.any fun d => d.severity = Severity.error

/-- What a call of `put` does: the model and the diagnostics it leaves behind (both are
passed by pointer), the rules it handed to `PutScanConfigurationRule`, the requests that
reached the transport, and the lines it logged. -/
structure PutEffect where
  m : scanConfigurationRuleModel
  diags : Diagnostics
  upserts : List ScanConfigurationRule
  sent : List Request
  logs : List String

/-- The `advanced` map of `put`: the empty map, unless the attribute is non-null and its
text non-empty, in which case the text is decoded into it. -/
def decodeAdvanced (m : scanConfigurationRuleModel) :
    Except String (Option (List (String × JSON))) :=
  if !m.AdvancedSettingsJSON.IsNull && m.AdvancedSettingsJSON.ValueString ≠ "" then
    jsonUnmarshalMap m.AdvancedSettingsJSON.ValueString
  else .ok (some [])

/-- The rule literal `put` builds from the model, the encoded tags and the decoded
advanced settings; the fields it does not name keep their zero value. The conversion
`int(...)` of the priority is the identity (64-bit `int`). -/
def buildRule (m : scanConfigurationRuleModel) (tagsJSON : String)
    (advanced : Option (List (String × JSON))) : ScanConfigurationRule :=
  { ScanConfigurationRule.zero with
    RuleName := m.RuleName.ValueString
    RulePriority := m.RulePriority.ValueInt64
    IsEnabledRule := m.IsEnabledRule.ValueBool
    IsDefaultRule := m.IsDefaultRule.ValueBool
    Feature := m.Feature.ValueString
    Action := m.Action.ValueString
    SelectorCloudAccounts := extractStrings m.SelectorCloudAccounts
    SelectorBusinessUnits := extractStrings m.SelectorBusinessUnits
    Tags := some tagsJSON
    Policies := extractStrings m.Policies
    AdvancedSettings := advanced }

/-- The method `put`. -/
def put (c : APIClient) (m : scanConfigurationRuleModel) (diags : Diagnostics) : PutEffect :=
  let tags := extractStrings m.Tags
  match jsonMarshalStrings tags with
  | .error err =>
    { m := m, diags := diags.AddError "Error marshalling tags" err,
      upserts := [], sent := [], logs := [] }
  | .ok tagsJSON =>
    match decodeAdvanced m with
    | .error err =>
      { m := m, diags := diags.AddError "Invalid advanced_settings_json" err,
        upserts := [], sent := [], logs := [] }
    | .ok advanced =>
      let rule := buildRule m tagsJSON advanced
      let call := PutScanConfigurationRule c rule
      match call.result with
      | .error err =>
        { m := m, diags := diags.AddError "Error calling Orca API" err,
          upserts := [rule], sent := call.sent, logs := [] }
      | .ok created =>
        { m := { m with ID := TString.value created.RuleID }, diags := diags,
          upserts := [rule], sent := call.sent,
          logs := ["Scan configuration rule upserted: " ++ created.RuleID] }

/-- The response of a lifecycle hook: the state to persist (`none` once the resource is
removed) and the diagnostics. -/
structure ResourceResponse where
  State : Option scanConfigurationRuleModel
  Diagnostics : Diagnostics

/-- What a lifecycle hook does: the response it leaves behind, the rules it handed to the
upsert operation and the requests that reached the transport. -/
structure HookEffect where
  resp : ResourceResponse
  upserts : List ScanConfigurationRule
  sent : List Request

/-- The hook `Create`: `plan` is what `req.Plan.Get` reads, `resp` the response as the
framework passes it in. Reading the plan and `State.Set` on a model of the schema's shape
add no diagnostics. -/
def Create (c : APIClient) (plan : scanConfigurationRuleModel) (resp : ResourceResponse) :
    HookEffect :=
  let e := put c plan resp.Diagnostics
  { resp := { State := some e.m, Diagnostics := e.diags }, upserts := e.upserts, sent := e.sent }

/-- The hook `Read`: the stored state is written back unchanged. -/
def Read (state : scanConfigurationRuleModel) (resp : ResourceResponse) : HookEffect :=
  { resp := { State := some state, Diagnostics := resp.Diagnostics }, upserts := [], sent := [] }

/-- The hook `Update`. -/
def Update (c : APIClient) (plan : scanConfigurationRuleModel) (resp : ResourceResponse) :
    HookEffect :=
  let e := put c plan resp.Diagnostics
  { resp := { State := some e.m, Diagnostics := e.diags }, upserts := e.upserts, sent := e.sent }

/-- The hook `Delete`: `state` is what `req.State.Get` reads. -/
def Delete (c : APIClient) (state : scanConfigurationRuleModel) (resp : ResourceResponse) :
    HookEffect :=
  let state1 := { state with IsEnabledRule := TBool.value false }
  let e := put c state1 resp.Diagnostics
  { resp := { State := none, Diagnostics := e.diags }, upserts := e.upserts, sent := e.sent }

/-! ## Stub collaborators and sample values -/

/-- The string member `k` of an object: `""` when absent or null, an error when the
member has another type. -/
def stringMember (kvs : List (String × JSON)) (k : String) : Except String String :=
  match kvs.lookup k with
  | none => .ok ""
  | some JSON.null => .ok ""
  | some (JSON.str s) => .ok s
  | some _ => .error ("json: cannot unmarshal value into Go struct field " ++ k)

/-- Modelled from the spec: `ReadJSON` of the shared response type, whose code is outside
the two files. The body is parsed "expecting `{"status": ..., "data": {"rule_id": ...}}`",
every other field is ignored, malformed JSON is a decode failure, and a missing member
leaves the empty string. -/
def ReadJSON (resp : HTTPResponse) : Except String scanConfigurationRulePutResponse :=
  match parseJSON resp.body with
  | none => .error "invalid JSON in response body"
  | some (JSON.obj kvs) =>
    match stringMember kvs "status" with
    | .error e => .error e
    | .ok status =>
      match kvs.lookup "data" with
      | none => .ok { Status := status, Data := { RuleID := "" } }
      | some JSON.null => .ok { Status := status, Data := { RuleID := "" } }
      | some (JSON.obj d) =>
        match stringMember d "rule_id" with
        | .error e => .error e
        | .ok id => .ok { Status := status, Data := { RuleID := id } }
      | some _ => .error "json: cannot unmarshal value into Go struct field data"
  | some JSON.null => .ok { Status := "", Data := { RuleID := "" } }
  | some _ => .error "json: cannot unmarshal value into Go value of type struct"

/-- A stub server: every URL is accepted and every request is answered with `body`,
which is decoded by `ReadJSON`. -/
def stubClient (body : String) : APIClient :=
  { APIEndpoint := "https://orca.test"
    urlError := fun _ => none
    doRequest := fun _ => .ok { body := body }
    readJSON := ReadJSON }

/-- A client whose transport fails on every request. -/
def downClient : APIClient :=
  { APIEndpoint := "https://orca.test"
    urlError := fun _ => none
    doRequest := fun _ => .error "connection refused"
    readJSON := ReadJSON }

/-- The URL `PutScanConfigurationRule` sends to. -/
def rulesURL (c : APIClient) : String :=
  c.APIEndpoint ++ "/api/scan_configuration/rules"

/-- A populated rule. -/
def sampleRule : ScanConfigurationRule :=
  { ScanConfigurationRule.zero with
    RuleName := "skip-dev", RulePriority := 7, Feature := "malware", Action := "skip",
    IsEnabledRule := true, Policies := some ["p1"], Tags := some "[\"env\"]",
    SelectorCloudAccounts := some ["acct-1", "acct-2"] }

/-- A resource model with two known tags and no advanced settings. -/
def sampleModel : scanConfigurationRuleModel :=
  { ID := TString.value "rule-1", RuleName := TString.value "skip-dev",
    RulePriority := TInt64.value 7, IsEnabledRule := TBool.value true,
    IsDefaultRule := TBool.null, Feature := TString.value "malware",
    Action := TString.value "skip", SelectorCloudAccounts := some [TString.value "acct-1"],
    SelectorBusinessUnits := none, Tags := some [TString.value "env", TString.value "dev"],
    Policies := some [TString.value "p1"], AdvancedSettingsJSON := TString.null }

/-- An empty response with no diagnostics. -/
def emptyResp : ResourceResponse :=
  { State := none, Diagnostics := [] }

/-- The body of an answer with an empty identifier:
`{"status":"ok","data":{"rule_id":""}}`. -/
def emptyIdBody : String :=
  "\x7b\"status\":\"ok\",\"data\":\x7b\"rule_id\":\"\"\x7d\x7d"

/-- The body of an answer with the identifier "r-42" next to a member the client ignores:
`{"status":"ok","data":{"rule_id":"r-42","tags":{}}}`. -/
def extraFieldsBody : String :=
  "\x7b\"status\":\"ok\",\"data\":\x7b\"rule_id\":\"r-42\",\"tags\":\x7b\x7d\x7d\x7d"

/-- The body of a successful answer of the stub server. -/
def okBody : String :=
  "\x7b\"status\":\"ok\",\"data\":\x7b\"rule_id\":\"rule-9\"\x7d\x7d"

/-- A model whose advanced settings text is the malformed `{not json`. -/
def malformedModel : scanConfigurationRuleModel :=
  { sampleModel with AdvancedSettingsJSON := TString.value "\x7bnot json" }

/-- A model whose advanced settings text is the JSON literal `null`. -/
def nullModel : scanConfigurationRuleModel :=
  { sampleModel with AdvancedSettingsJSON := TString.value "null" }

/-- A model whose advanced settings text is the object `{"a":1e400}`, well formed but with
a number outside the range of `float64`. -/
def overflowModel : scanConfigurationRuleModel :=
  { sampleModel with AdvancedSettingsJSON := TString.value "\x7b\"a\":1e400\x7d" }

/-- A model with no tags attribute (the nil slice). -/
def noTagsModel : scanConfigurationRuleModel :=
  { sampleModel with Tags := none }

/-- A rule whose three sequences are empty: two non-nil empty slices and a nil one. -/
def emptySequencesRule : ScanConfigurationRule :=
  { ScanConfigurationRule.zero with
    RuleName := "r", Feature := "f", Action := "a", Policies := some [],
    SelectorCloudAccounts := some [], SelectorBusinessUnits := none }

/-- The response a hook receives when the stored state is `st`. -/
def respWith (st : scanConfigurationRuleModel) : ResourceResponse :=
  { State := some st, Diagnostics := [] }

/-! ## Notions used in the statements -/

/-- The tags bytes are absent, empty, or valid JSON. -/
def tagsEncodable (r : ScanConfigurationRule) : Prop :=
  ∀ bytes, r.Tags = some bytes → bytes = "" ∨ validJSON bytes = true

/-- How a sequence field shows in a document: as the array of its strings when it is not
empty, not at all when it is empty, and never with any other value. -/
def arrayOrAbsent (doc : Doc) (k : String) (xs : Slice String) : Prop :=
  (xs.len ≠ 0 → (k, DocValue.json (JSON.arr (xs.elems.map JSON.str))) ∈ doc)
  ∧ (xs.len = 0 → ¬ doc.hasKey k)
  ∧ (∀ v, (k, v) ∈ doc → v = DocValue.json (JSON.arr (xs.elems.map JSON.str)))

/-- The bytes `put` computes for the tags of a model. -/
def tagsJSONOf (m : scanConfigurationRuleModel) : String :=
  stringsJSON (m.Tags.elems.foldl extractStep [])

/-- The upsert made by `put` for a model fails: either the advanced settings text does
not decode, or `PutScanConfigurationRule` returns an error (from serialization, the URL,
the transport, the response decoder, or the empty-identifier check). -/
def upsertFails (c : APIClient) (m : scanConfigurationRuleModel) : Prop :=
  (∃ err, decodeAdvanced m = .error err)
  ∨ (∃ adv err, decodeAdvanced m = .ok adv
      ∧ (PutScanConfigurationRule c (buildRule m (tagsJSONOf m) adv)).result = .error err)

/-! ## The range of `float64` -/

theorem float64Limit_eq : float64Limit = 2 ^ 1024 - 2 ^ 970 := by
  norm_num [float64Limit]

/-! ## Properties of `extractStrings` -/

theorem foldl_extractStep (l : List TString) (acc : List String) :
    l.foldl extractStep acc
      = acc ++ l.filterMap (fun v => match v with | .value s => some s | _ => none) := by
  induction l generalizing acc with
  | nil => simp
  | cons v vs ih =>
    cases v <;>
      simp [List.foldl_cons, ih, extractStep, TString.IsNull, TString.IsUnknown,
        TString.ValueString, List.filterMap_cons]

theorem foldl_extractStep_no_known (l : List TString)
    (h : ∀ v ∈ l, v.IsNull = true ∨ v.IsUnknown = true) : l.foldl extractStep [] = [] := by
  rw [foldl_extractStep, List.nil_append]
  induction l with
  | nil => rfl
  | cons v vs ih =>
    have hv := h v (by simp)
    have ih1 := ih (fun w hw => h w (by simp [hw]))
    cases v <;> simp_all [TString.IsNull, TString.IsUnknown]

/-- C10: for every input slice, the nil slice included, `extractStrings` returns a
non-nil slice holding exactly the values of the elements that are neither null nor
unknown, in their original order; it is no longer than the input, it is the input's values
when no element is null or unknown, and it is empty when every element is. -/
theorem extractStrings_correct (input : Slice TString) :
    extractStrings input = some (extractStringsSpec input)
    ∧ extractStrings input ≠ none
    ∧ (extractStrings input).len ≤ input.len
    ∧ ((∀ v ∈ input.elems, v.IsNull = false ∧ v.IsUnknown = false) →
        extractStrings input = some (input.elems.map TString.ValueString))
    ∧ ((∀ v ∈ input.elems, v.IsNull = true ∨ v.IsUnknown = true) →
        extractStrings input = some []) := by
  have h : extractStrings input = some (extractStringsSpec input) := by
    simp [extractStrings, extractStringsSpec, foldl_extractStep]
  refine ⟨h, by simp [extractStrings], ?_, ?_, ?_⟩
  · rw [h]
    cases input with
    | none => simp [Slice.len, extractStringsSpec, Slice.elems]
    | some xs =>
      simpa [Slice.len, extractStringsSpec, Slice.elems] using List.length_filterMap_le _ xs
  · intro hk
    rw [h, extractStringsSpec]
    congr 1
    generalize input.elems = l at hk
    induction l with
    | nil => rfl
    | cons v vs ih =>
      have hv := hk v (by simp)
      have ih1 := ih (fun w hw => hk w (by simp [hw]))
      cases v <;> simp_all [TString.IsNull, TString.IsUnknown, TString.ValueString]
  · intro hn
    rw [h, extractStringsSpec]
    congr 1
    generalize input.elems = l at hn
    induction l with
    | nil => rfl
    | cons v vs ih =>
      have hv := hn v (by simp)
      have ih1 := ih (fun w hw => hn w (by simp [hw]))
      cases v <;> simp_all [TString.IsNull, TString.IsUnknown]

/-- C10, at a slice mixing known, null and unknown elements, at the nil slice, at a slice
of known elements and at a slice without a known element. -/
theorem extractStrings_correct_witness :
    extractStrings (some [TString.value "a", TString.null, TString.value "b", TString.unknown])
      = some ["a", "b"]
    ∧ extractStrings none = some []
    ∧ extractStrings (some [TString.value "x", TString.value ""]) = some ["x", ""]
    ∧ extractStrings (some [TString.null, TString.unknown]) = some [] :=
  ⟨(extractStrings_correct
      (some [TString.value "a", TString.null, TString.value "b", TString.unknown])).1,
    (extractStrings_correct none).1,
    (extractStrings_correct (some [TString.value "x", TString.value ""])).2.2.2.1
      (by decide),
    (extractStrings_correct (some [TString.null, TString.unknown])).2.2.2.2 (by decide)⟩

/-! ## Properties of `PutScanConfigurationRule` -/

theorem put_rule_decoded (c : APIClient) (rule : ScanConfigurationRule) (payload : Doc)
    (resp : HTTPResponse) (parsed : scanConfigurationRulePutResponse)
    (hm : marshalRule rule = .ok payload) (hu : c.urlError (rulesURL c) = none)
    (hd : c.doRequest { method := "PUT", url := rulesURL c, body := payload } = .ok resp)
    (hr : c.readJSON resp = .ok parsed) :
    (PutScanConfigurationRule c rule).result
      = if parsed.Data.RuleID = "" then .error "no rule_id returned from Orca"
        else .ok { ScanConfigurationRule.zero with RuleID := parsed.Data.RuleID } := by
  unfold rulesURL at hu hd
  simp only [PutScanConfigurationRule, hm, hu, hd, hr]
  split <;> rfl

/-- C1: whenever the rule serializes, the request is executed and the response decodes,
`PutScanConfigurationRule` fails with the error "no rule_id returned from Orca" if and
only if the decoded `data.rule_id` is the empty string, and a success never carries an
empty identifier; in particular a stub server answering
`{"status":"ok","data":{"rule_id":""}}` makes the call fail with that error. -/
theorem PutScanConfigurationRule_empty_id :
    (∀ (c : APIClient) (rule : ScanConfigurationRule) (payload : Doc) (resp : HTTPResponse)
        (parsed : scanConfigurationRulePutResponse),
        marshalRule rule = .ok payload →
        c.urlError (rulesURL c) = none →
        c.doRequest { method := "PUT", url := rulesURL c, body := payload } = .ok resp →
        c.readJSON resp = .ok parsed →
        (((PutScanConfigurationRule c rule).result = .error "no rule_id returned from Orca"
            ↔ parsed.Data.RuleID = "")
          ∧ (∀ r, (PutScanConfigurationRule c rule).result = .ok r → r.RuleID ≠ "")
          ∧ (parsed.Data.RuleID = "" →
              ∀ r, (PutScanConfigurationRule c rule).result ≠ .ok r)))
    ∧ (∀ (rule : ScanConfigurationRule) (payload : Doc), marshalRule rule = .ok payload →
        (PutScanConfigurationRule
            (stubClient emptyIdBody) rule).result
          = .error "no rule_id returned from Orca") := by
  constructor
  · intro c rule payload resp parsed hm hu hd hr
    have h := put_rule_decoded c rule payload resp parsed hm hu hd hr
    by_cases hid : parsed.Data.RuleID = ""
    · simp [h, hid]
    · simp only [h, hid, if_false]
      refine ⟨by simp, ?_, by simp⟩
      intro r hr1
      injection hr1 with hr2
      subst hr2
      exact hid
  · intro rule payload hm
    have h := put_rule_decoded (stubClient emptyIdBody)
      rule payload { body := emptyIdBody }
      { Status := "ok", Data := { RuleID := "" } } hm rfl rfl (by rfl)
    simpa using h

/-- C1, at the sample rule and the stub server that answers with an empty `rule_id`. -/
theorem PutScanConfigurationRule_empty_id_witness :
    ((PutScanConfigurationRule
          (stubClient emptyIdBody) sampleRule).result
        = .error "no rule_id returned from Orca" ↔ "" = "")
    ∧ (PutScanConfigurationRule
          (stubClient emptyIdBody) sampleRule).result
        = .error "no rule_id returned from Orca" :=
  ⟨(PutScanConfigurationRule_empty_id.1
      (stubClient emptyIdBody) sampleRule _
      { body := emptyIdBody }
      { Status := "ok", Data := { RuleID := "" } } rfl rfl rfl (by rfl)).1,
    PutScanConfigurationRule_empty_id.2 sampleRule _ rfl⟩

/-- C2: whenever the rule serializes, the request is executed and the response decodes
to a non-empty `data.rule_id`, `PutScanConfigurationRule` succeeds with a rule whose
identifier is that value and whose every other field has its zero value, whatever the
rule sent and whatever the status member of the response. -/
theorem PutScanConfigurationRule_minimal (c : APIClient) (rule : ScanConfigurationRule)
    (payload : Doc) (resp : HTTPResponse) (status s : String)
    (hm : marshalRule rule = .ok payload) (hu : c.urlError (rulesURL c) = none)
    (hd : c.doRequest { method := "PUT", url := rulesURL c, body := payload } = .ok resp)
    (hr : c.readJSON resp = .ok { Status := status, Data := { RuleID := s } })
    (hs : s ≠ "") :
    (PutScanConfigurationRule c rule).result
      = .ok { RuleID := s, AssignedPolicies := none, Policies := none, RulePriority := 0,
              RuleName := "", RuleCreator := "", LastModified := "", Tags := none,
              AdvancedSettings := none, SelectorCloudAccounts := none,
              SelectorBusinessUnits := none, Feature := "", Action := "",
              IsEnabledRule := false, IsDefaultRule := false, IsOverridePackage := false,
              ModifiedBy := "", Organization := "" } := by
  have h := put_rule_decoded c rule payload resp _ hm hu hd hr
  simp only [hs, if_false] at h
  exact h

/-- C2, at the sample rule and a stub server that answers with `rule_id` "r-42" next to
members the client ignores. -/
theorem PutScanConfigurationRule_minimal_witness :
    (PutScanConfigurationRule
        (stubClient extraFieldsBody)
        sampleRule).result
      = .ok { RuleID := "r-42", AssignedPolicies := none, Policies := none,
              RulePriority := 0, RuleName := "", RuleCreator := "", LastModified := "",
              Tags := none, AdvancedSettings := none, SelectorCloudAccounts := none,
              SelectorBusinessUnits := none, Feature := "", Action := "",
              IsEnabledRule := false, IsDefaultRule := false, IsOverridePackage := false,
              ModifiedBy := "", Organization := "" } :=
  PutScanConfigurationRule_minimal
    (stubClient extraFieldsBody) sampleRule
    _ { body := extraFieldsBody } "ok" "r-42"
    rfl rfl rfl (by rfl) (by decide)

theorem sent_body (c : APIClient) (rule : ScanConfigurationRule) (req : Request)
    (h : req ∈ (PutScanConfigurationRule c rule).sent) : marshalRule rule = .ok req.body := by
  unfold PutScanConfigurationRule at h
  cases hm : marshalRule rule with
  | error e => simp [hm] at h
  | ok payload =>
    simp only [hm] at h
    cases hu : c.urlError (c.APIEndpoint ++ "/api/scan_configuration/rules") with
    | some e => simp [hu] at h
    | none =>
      simp only [hu] at h
      have hreq : req =
          { method := "PUT", url := c.APIEndpoint ++ "/api/scan_configuration/rules",
            body := payload } := by
        revert h
        split
        · simp
        · split
          · simp
          · split <;> simp
      rw [hreq]

theorem sent_of_url_ok (c : APIClient) (rule : ScanConfigurationRule) (payload : Doc)
    (hm : marshalRule rule = .ok payload) (hu : c.urlError (rulesURL c) = none) :
    (PutScanConfigurationRule c rule).sent
      = [{ method := "PUT", url := rulesURL c, body := payload }] := by
  unfold rulesURL at hu
  unfold PutScanConfigurationRule rulesURL
  simp only [hm, hu]
  split
  · rfl
  · split
    · rfl
    · split <;> rfl

/-! ## Properties of the serialization -/

theorem mem_omitString (k k1 s : String) (v : DocValue) :
    (k, v) ∈ omitString k1 s ↔ k = k1 ∧ s ≠ "" ∧ v = DocValue.json (JSON.str s) := by
  unfold omitString
  split <;> simp_all

theorem mem_omitStrings (k k1 : String) (xs : Slice String) (v : DocValue) :
    (k, v) ∈ omitStrings k1 xs
      ↔ k = k1 ∧ xs.len ≠ 0 ∧ v = DocValue.json (JSON.arr (xs.elems.map JSON.str)) := by
  unfold omitStrings
  split <;> simp_all

theorem mem_omitBool (k k1 : String) (b : Bool) (v : DocValue) :
    (k, v) ∈ omitBool k1 b ↔ k = k1 ∧ b = true ∧ v = DocValue.json (JSON.bool true) := by
  unfold omitBool
  split <;> simp_all

theorem mem_omitMap (k k1 : String) (m : Option (List (String × JSON))) (v : DocValue) :
    (k, v) ∈ omitMap k1 m
      ↔ k = k1 ∧ mapLen m ≠ 0 ∧ v = DocValue.json (JSON.obj (mapEntries m)) := by
  unfold omitMap
  split <;> simp_all

theorem mem_omitRaw (k k1 : String) (b : Option String) (d : Doc) (v : DocValue)
    (h : omitRaw k1 b = .ok d) :
    (k, v) ∈ d ↔ k = k1 ∧ ∃ bytes, b = some bytes ∧ bytes ≠ "" ∧ v = DocValue.raw bytes := by
  unfold omitRaw at h
  cases b with
  | none =>
    injection h with h1
    subst h1
    simp
  | some bytes =>
    simp only at h
    by_cases he : bytes = ""
    · simp only [he, if_true] at h
      injection h with h1
      subst h1
      simp [he]
    · simp only [he, if_false] at h
      by_cases hv : validJSON bytes = true
      · simp only [hv, if_true] at h
        injection h with h1
        subst h1
        simp only [List.mem_singleton, Prod.mk.injEq, Option.some.injEq]
        constructor
        · rintro ⟨rfl, rfl⟩
          exact ⟨rfl, bytes, rfl, he, rfl⟩
        · rintro ⟨rfl, b1, rfl, _, rfl⟩
          exact ⟨rfl, rfl⟩
      · simp [hv] at h

theorem marshalRule_ok_of_tags (r : ScanConfigurationRule) (h : tagsEncodable r) :
    ∃ doc, marshalRule r = .ok doc := by
  unfold marshalRule omitRaw
  cases ht : r.Tags with
  | none => exact ⟨_, rfl⟩
  | some bytes =>
    rcases h bytes ht with he | hv
    · simp [he]
    · by_cases he : bytes = ""
      · simp [he]
      · simp [he, hv]

theorem mem_marshalRule (r : ScanConfigurationRule) (doc : Doc) (h : marshalRule r = .ok doc)
    (k : String) (v : DocValue) :
    (k, v) ∈ doc ↔
      ((k = "rule_id" ∧ r.RuleID ≠ "" ∧ v = DocValue.json (JSON.str r.RuleID))
      ∨ (k = "assigned_policies" ∧ r.AssignedPolicies.len ≠ 0
          ∧ v = DocValue.json (JSON.arr (r.AssignedPolicies.elems.map JSON.str)))
      ∨ (k = "policies" ∧ r.Policies.len ≠ 0
          ∧ v = DocValue.json (JSON.arr (r.Policies.elems.map JSON.str)))
      ∨ (k = "rule_priority" ∧ v = DocValue.json (JSON.num (toString r.RulePriority)))
      ∨ (k = "rule_name" ∧ v = DocValue.json (JSON.str r.RuleName))
      ∨ (k = "rule_creator" ∧ r.RuleCreator ≠ "" ∧ v = DocValue.json (JSON.str r.RuleCreator))
      ∨ (k = "last_modified" ∧ r.LastModified ≠ ""
          ∧ v = DocValue.json (JSON.str r.LastModified))
      ∨ (k = "tags" ∧ ∃ bytes, r.Tags = some bytes ∧ bytes ≠ "" ∧ v = DocValue.raw bytes)
      ∨ (k = "advanced_settings" ∧ mapLen r.AdvancedSettings ≠ 0
          ∧ v = DocValue.json (JSON.obj (mapEntries r.AdvancedSettings)))
      ∨ (k = "selector_cloud_accounts" ∧ r.SelectorCloudAccounts.len ≠ 0
          ∧ v = DocValue.json (JSON.arr (r.SelectorCloudAccounts.elems.map JSON.str)))
      ∨ (k = "selector_business_units" ∧ r.SelectorBusinessUnits.len ≠ 0
          ∧ v = DocValue.json (JSON.arr (r.SelectorBusinessUnits.elems.map JSON.str)))
      ∨ (k = "feature" ∧ v = DocValue.json (JSON.str r.Feature))
      ∨ (k = "action" ∧ v = DocValue.json (JSON.str r.Action))
      ∨ (k = "is_enabled_rule" ∧ v = DocValue.json (JSON.bool r.IsEnabledRule))
      ∨ (k = "is_default_rule" ∧ v = DocValue.json (JSON.bool r.IsDefaultRule))
      ∨ (k = "is_override_package" ∧ r.IsOverridePackage = true
          ∧ v = DocValue.json (JSON.bool true))
      ∨ (k = "modified_by" ∧ r.ModifiedBy ≠ "" ∧ v = DocValue.json (JSON.str r.ModifiedBy))
      ∨ (k = "organization" ∧ r.Organization ≠ ""
          ∧ v = DocValue.json (JSON.str r.Organization))) := by
  unfold marshalRule at h
  cases ht : omitRaw "tags" r.Tags with
  | error e => simp [ht] at h
  | ok tags =>
    simp only [ht] at h
    injection h with h1
    subst h1
    simp only [List.mem_append, mem_omitString, mem_omitStrings, mem_omitBool, mem_omitMap,
      mem_omitRaw k "tags" r.Tags tags v ht, List.mem_singleton, Prod.mk.injEq, or_assoc]

theorem hasKey_iff (doc : Doc) (k : String) : doc.hasKey k ↔ ∃ v, (k, v) ∈ doc := by
  simp [Doc.hasKey]

/-- C3 as stated fails: the rule with empty `policies`, `selector_cloud_accounts` and
`selector_business_units` serializes to a document that has none of the three keys. -/
theorem marshalRule_empty_sequences_left_out :
    ∃ doc, marshalRule emptySequencesRule = .ok doc
      ∧ ¬ doc.hasKey "policies"
      ∧ ¬ doc.hasKey "selector_cloud_accounts"
      ∧ ¬ doc.hasKey "selector_business_units" := by
  obtain ⟨doc, hd⟩ : ∃ doc, marshalRule emptySequencesRule = .ok doc := ⟨_, rfl⟩
  refine ⟨doc, hd, ?_, ?_, ?_⟩ <;>
    simp [hasKey_iff, mem_marshalRule emptySequencesRule doc hd, emptySequencesRule,
      ScanConfigurationRule.zero, Slice.len]

/-- C3, amended: every rule whose tags bytes are absent, empty or valid JSON serializes,
and in its document each of `policies`, `selector_cloud_accounts` and
`selector_business_units` is the JSON array of the sequence's strings when the sequence is
not empty and is left out when the sequence is empty (nil or of length zero); none of
them ever carries another value such as null or a bare scalar. -/
theorem marshalRule_sequences (r : ScanConfigurationRule) (h : tagsEncodable r) :
    ∃ doc, marshalRule r = .ok doc
      ∧ arrayOrAbsent doc "policies" r.Policies
      ∧ arrayOrAbsent doc "selector_cloud_accounts" r.SelectorCloudAccounts
      ∧ arrayOrAbsent doc "selector_business_units" r.SelectorBusinessUnits := by
  obtain ⟨doc, hd⟩ := marshalRule_ok_of_tags r h
  refine ⟨doc, hd, ?_, ?_, ?_⟩ <;>
  · refine ⟨?_, ?_, ?_⟩
    · intro hl
      simp [mem_marshalRule r doc hd, hl]
    · intro hl
      simp [hasKey_iff, mem_marshalRule r doc hd, hl]
    · intro v hv
      have hv1 := (mem_marshalRule r doc hd _ v).1 hv
      simp only [String.reduceEq, false_and, true_and, false_or, or_false] at hv1
      exact hv1.2

theorem sampleRule_tagsEncodable : tagsEncodable sampleRule := by
  intro bytes hb
  injection hb with hb1
  subst hb1
  exact Or.inr (by decide)

/-- C3 amended, at the sample rule: one policy, two cloud accounts, no business units. -/
theorem marshalRule_sequences_witness :
    ∃ doc, marshalRule sampleRule = .ok doc
      ∧ arrayOrAbsent doc "policies" (some ["p1"])
      ∧ arrayOrAbsent doc "selector_cloud_accounts" (some ["acct-1", "acct-2"])
      ∧ arrayOrAbsent doc "selector_business_units" none :=
  marshalRule_sequences sampleRule sampleRule_tagsEncodable

/-- C4: every rule whose tags bytes are absent, empty or valid JSON serializes, and its
document has the key of each optional field (`rule_id`, `rule_creator`, `last_modified`,
`tags`, `advanced_settings`, `selector_cloud_accounts`, `selector_business_units`,
`is_override_package`, `modified_by`, `organization`) if and only if that field is
non-empty, and always has the six keys `rule_name`, `rule_priority`, `feature`, `action`,
`is_enabled_rule` and `is_default_rule`, whatever their values. -/
theorem marshalRule_omission (r : ScanConfigurationRule) (h : tagsEncodable r) :
    ∃ doc, marshalRule r = .ok doc
      ∧ (doc.hasKey "rule_id" ↔ r.RuleID ≠ "")
      ∧ (doc.hasKey "rule_creator" ↔ r.RuleCreator ≠ "")
      ∧ (doc.hasKey "last_modified" ↔ r.LastModified ≠ "")
      ∧ (doc.hasKey "tags" ↔ ∃ bytes, r.Tags = some bytes ∧ bytes ≠ "")
      ∧ (doc.hasKey "advanced_settings" ↔ mapLen r.AdvancedSettings ≠ 0)
      ∧ (doc.hasKey "selector_cloud_accounts" ↔ r.SelectorCloudAccounts.len ≠ 0)
      ∧ (doc.hasKey "selector_business_units" ↔ r.SelectorBusinessUnits.len ≠ 0)
      ∧ (doc.hasKey "is_override_package" ↔ r.IsOverridePackage = true)
      ∧ (doc.hasKey "modified_by" ↔ r.ModifiedBy ≠ "")
      ∧ (doc.hasKey "organization" ↔ r.Organization ≠ "")
      ∧ ("rule_name", DocValue.json (JSON.str r.RuleName)) ∈ doc
      ∧ ("rule_priority", DocValue.json (JSON.num (toString r.RulePriority))) ∈ doc
      ∧ ("feature", DocValue.json (JSON.str r.Feature)) ∈ doc
      ∧ ("action", DocValue.json (JSON.str r.Action)) ∈ doc
      ∧ ("is_enabled_rule", DocValue.json (JSON.bool r.IsEnabledRule)) ∈ doc
      ∧ ("is_default_rule", DocValue.json (JSON.bool r.IsDefaultRule)) ∈ doc := by
  obtain ⟨doc, hd⟩ := marshalRule_ok_of_tags r h
  have htags : doc.hasKey "tags" ↔ ∃ bytes, r.Tags = some bytes ∧ bytes ≠ "" := by
    simp only [hasKey_iff, mem_marshalRule r doc hd, String.reduceEq, false_and, true_and,
      false_or, or_false]
    constructor
    · rintro ⟨_, bytes, h1, h2, _⟩
      exact ⟨bytes, h1, h2⟩
    · rintro ⟨bytes, h1, h2⟩
      exact ⟨_, bytes, h1, h2, rfl⟩
  refine ⟨doc, hd, ?_, ?_, ?_, htags, ?_, ?_, ?_, ?_, ?_, ?_, ?_, ?_, ?_, ?_, ?_, ?_⟩ <;>
    simp [hasKey_iff, mem_marshalRule r doc hd]

/-- The zero rule: every optional field empty, every required field `""`, `0` or `false`. -/
theorem zero_tagsEncodable : tagsEncodable ScanConfigurationRule.zero := by
  intro bytes hb
  simp [ScanConfigurationRule.zero] at hb

/-- C4, at the zero rule: its document has the six required keys and no `rule_id`. -/
theorem marshalRule_omission_witness :
    ∃ doc, marshalRule ScanConfigurationRule.zero = .ok doc
      ∧ ¬ doc.hasKey "rule_id"
      ∧ ("rule_name", DocValue.json (JSON.str "")) ∈ doc
      ∧ ("rule_priority", DocValue.json (JSON.num (toString (0 : Int)))) ∈ doc
      ∧ ("is_enabled_rule", DocValue.json (JSON.bool false)) ∈ doc := by
  obtain ⟨doc, hd, h1, _, _, _, _, _, _, _, _, _, h2, h3, _, _, h4, _⟩ :=
    marshalRule_omission ScanConfigurationRule.zero zero_tagsEncodable
  exact ⟨doc, hd, by simpa [ScanConfigurationRule.zero] using h1, h2, h3, h4⟩

/-! ## Properties of `put` -/

theorem jsonMarshalStrings_extract (m : scanConfigurationRuleModel) :
    jsonMarshalStrings (extractStrings m.Tags) = .ok (tagsJSONOf m) := rfl

theorem put_of_decode_error (c : APIClient) (m : scanConfigurationRuleModel)
    (diags : Diagnostics) (err : String) (h : decodeAdvanced m = .error err) :
    put c m diags
      = { m := m, diags := diags.AddError "Invalid advanced_settings_json" err,
          upserts := [], sent := [], logs := [] } := by
  simp only [put, jsonMarshalStrings_extract, h]

theorem put_of_call_error (c : APIClient) (m : scanConfigurationRuleModel)
    (diags : Diagnostics) (adv : Option (List (String × JSON))) (err : String)
    (h : decodeAdvanced m = .ok adv)
    (hc : (PutScanConfigurationRule c (buildRule m (tagsJSONOf m) adv)).result = .error err) :
    put c m diags
      = { m := m, diags := diags.AddError "Error calling Orca API" err,
          upserts := [buildRule m (tagsJSONOf m) adv],
          sent := (PutScanConfigurationRule c (buildRule m (tagsJSONOf m) adv)).sent,
          logs := [] } := by
  simp only [put, jsonMarshalStrings_extract, h, hc]

theorem put_of_call_ok (c : APIClient) (m : scanConfigurationRuleModel)
    (diags : Diagnostics) (adv : Option (List (String × JSON)))
    (created : ScanConfigurationRule) (h : decodeAdvanced m = .ok adv)
    (hc : (PutScanConfigurationRule c (buildRule m (tagsJSONOf m) adv)).result = .ok created) :
    put c m diags
      = { m := { m with ID := TString.value created.RuleID }, diags := diags,
          upserts := [buildRule m (tagsJSONOf m) adv],
          sent := (PutScanConfigurationRule c (buildRule m (tagsJSONOf m) adv)).sent,
          logs := ["Scan configuration rule upserted: " ++ created.RuleID] } := by
  simp only [put, jsonMarshalStrings_extract, h, hc]

theorem put_upserts_of_decode_ok (c : APIClient) (m : scanConfigurationRuleModel)
    (diags : Diagnostics) (adv : Option (List (String × JSON)))
    (h : decodeAdvanced m = .ok adv) :
    (put c m diags).upserts = [buildRule m (tagsJSONOf m) adv] := by
  cases hc : (PutScanConfigurationRule c (buildRule m (tagsJSONOf m) adv)).result with
  | error err => rw [put_of_call_error c m diags adv err h hc]
  | ok created => rw [put_of_call_ok c m diags adv created h hc]

theorem mem_AddError (diags : Diagnostics) (summary detail : String) :
    { severity := Severity.error, summary := summary, detail := detail }
      ∈ diags.AddError summary detail := by
  unfold Diagnostics.AddError
  split
  · assumption
  · simp

theorem hasError_AddError (diags : Diagnostics) (summary detail : String) :
    (diags.AddError summary detail).HasError = true := by
  unfold Diagnostics.HasError
  rw [List.any_eq_true]
  exact ⟨_, mem_AddError diags summary detail, by simp⟩

theorem jsonUnmarshalMap_error (text : String)
    (hobj : ∀ kvs, unmarshalValue text ≠ some (JSON.obj kvs))
    (hnull : unmarshalValue text ≠ some JSON.null) :
    ∃ err, jsonUnmarshalMap text = .error err := by
  unfold jsonUnmarshalMap
  cases h : unmarshalValue text with
  | none => exact ⟨_, rfl⟩
  | some v =>
    cases v with
    | null => exact absurd h hnull
    | obj kvs => exact absurd h (hobj kvs)
    | bool b => exact ⟨_, rfl⟩
    | num lit => exact ⟨_, rfl⟩
    | str t => exact ⟨_, rfl⟩
    | arr xs => exact ⟨_, rfl⟩

/-- C5 as stated fails: the text `null` is known, non-empty and decodes to JSON null, not
to an object, and yet `put` records no diagnostic, hands one rule (with nil advanced
settings) to the upsert operation, sends one request and stores the returned id. -/
theorem put_null_advanced_settings_accepted :
    nullModel.AdvancedSettingsJSON = TString.value "null"
    ∧ unmarshalValue "null" = some JSON.null
    ∧ (put (stubClient okBody) nullModel []).diags = []
    ∧ (put (stubClient okBody) nullModel []).upserts
        = [buildRule nullModel (tagsJSONOf nullModel) none]
    ∧ (put (stubClient okBody) nullModel []).sent.length = 1
    ∧ (put (stubClient okBody) nullModel []).m.ID = TString.value "rule-9" := by
  have hput := put_of_call_ok (stubClient okBody) nullModel [] none
    { ScanConfigurationRule.zero with RuleID := "rule-9" } (by rfl) (by rfl)
  obtain ⟨payload, hp⟩ : ∃ payload,
      marshalRule (buildRule nullModel (tagsJSONOf nullModel) none) = .ok payload :=
    ⟨_, rfl⟩
  have hsent := sent_of_url_ok (stubClient okBody) _ payload hp rfl
  refine ⟨rfl, by rfl, ?_, ?_, ?_, ?_⟩
  · rw [hput]
  · rw [hput]
  · rw [hput, hsent]
    rfl
  · rw [hput]

/-- C5, amended: for every model whose advanced settings attribute is a known, non-empty
text that decodes neither to a JSON object nor to JSON null (malformed text, text nested
too deeply, a number outside the range of `float64`, or another kind of value), `put`
records an error diagnostic with the summary "Invalid advanced_settings_json", hands no
rule to the upsert operation, sends no request, and leaves the model (its id included)
unchanged. -/
theorem put_invalid_advanced_settings (c : APIClient) (m : scanConfigurationRuleModel)
    (diags : Diagnostics) (text : String)
    (hm : m.AdvancedSettingsJSON = TString.value text) (ht : text ≠ "")
    (hobj : ∀ kvs, unmarshalValue text ≠ some (JSON.obj kvs))
    (hnull : unmarshalValue text ≠ some JSON.null) :
    ∃ err,
      { severity := Severity.error, summary := "Invalid advanced_settings_json",
        detail := err } ∈ (put c m diags).diags
      ∧ (put c m diags).diags = diags.AddError "Invalid advanced_settings_json" err
      ∧ (put c m diags).diags.HasError = true
      ∧ (put c m diags).upserts = []
      ∧ (put c m diags).sent = []
      ∧ (put c m diags).m = m
      ∧ (put c m diags).m.ID = m.ID := by
  obtain ⟨err, he⟩ := jsonUnmarshalMap_error text hobj hnull
  have hdec : decodeAdvanced m = .error err := by
    simp [decodeAdvanced, hm, TString.IsNull, TString.ValueString, ht, he]
  rw [put_of_decode_error c m diags err hdec]
  exact ⟨err, mem_AddError _ _ _, rfl, hasError_AddError _ _ _, rfl, rfl, rfl, rfl⟩

theorem unmarshalValue_malformed : unmarshalValue "\x7bnot json" = none := by rfl

set_option exponentiation.threshold 2000 in
theorem unmarshalValue_overflow : unmarshalValue "\x7b\"a\":1e400\x7d" = none := by rfl

/-- C5 amended, at the model whose advanced settings text is `{not json` and at the model
whose text is `{"a":1e400}`. -/
theorem put_invalid_advanced_settings_witness :
    (∃ err,
      { severity := Severity.error, summary := "Invalid advanced_settings_json",
        detail := err } ∈ (put (stubClient okBody) malformedModel []).diags
      ∧ (put (stubClient okBody) malformedModel []).upserts = []
      ∧ (put (stubClient okBody) malformedModel []).sent = []
      ∧ (put (stubClient okBody) malformedModel []).m.ID = TString.value "rule-1")
    ∧ (∃ err,
      { severity := Severity.error, summary := "Invalid advanced_settings_json",
        detail := err } ∈ (put (stubClient okBody) overflowModel []).diags
      ∧ (put (stubClient okBody) overflowModel []).upserts = []
      ∧ (put (stubClient okBody) overflowModel []).sent = []) := by
  constructor
  · obtain ⟨err, h⟩ := put_invalid_advanced_settings (stubClient okBody) malformedModel []
      "\x7bnot json" rfl (by decide)
      (fun kvs h => by rw [unmarshalValue_malformed] at h; exact Option.noConfusion h)
      (fun h => by rw [unmarshalValue_malformed] at h; exact Option.noConfusion h)
    exact ⟨err, h.1, h.2.2.2.1, h.2.2.2.2.1, h.2.2.2.2.2.2⟩
  · obtain ⟨err, h⟩ := put_invalid_advanced_settings (stubClient okBody) overflowModel []
      "\x7b\"a\":1e400\x7d" rfl (by decide)
      (fun kvs h => by rw [unmarshalValue_overflow] at h; exact Option.noConfusion h)
      (fun h => by rw [unmarshalValue_overflow] at h; exact Option.noConfusion h)
    exact ⟨err, h.1, h.2.2.2.1, h.2.2.2.2.1⟩

/-! ## Properties of the lifecycle hooks -/

theorem put_of_upsertFails (c : APIClient) (m : scanConfigurationRuleModel)
    (diags : Diagnostics) (h : upsertFails c m) :
    (put c m diags).m = m ∧ (put c m diags).diags.HasError = true
    ∧ ∃ summary detail, (put c m diags).diags = diags.AddError summary detail := by
  rcases h with ⟨err, he⟩ | ⟨adv, err, hd, hc⟩
  · rw [put_of_decode_error c m diags err he]
    exact ⟨rfl, hasError_AddError _ _ _, _, _, rfl⟩
  · rw [put_of_call_error c m diags adv err hd hc]
    exact ⟨rfl, hasError_AddError _ _ _, _, _, rfl⟩

/-- C6 as stated fails: for the stored state whose advanced settings text is `{not json`,
`Delete` hands no rule to the upsert operation and sends no request. -/
theorem Delete_malformed_state_no_upsert :
    (Delete (stubClient okBody) malformedModel (respWith malformedModel)).upserts = []
    ∧ (Delete (stubClient okBody) malformedModel (respWith malformedModel)).sent = [] := by
  have h : decodeAdvanced { malformedModel with IsEnabledRule := TBool.value false }
      = .error "invalid JSON text" := by rfl
  simp only [Delete, put_of_decode_error _ _ _ _ h, and_self]

/-- C6, amended: `Delete` always ends with the resource removed from local state; and for
every stored state whose advanced settings decode (the attribute is null, unknown or
empty, or its text is accepted by the decoder), `Delete` hands exactly one rule to the
upsert operation, which is the rule `Create` and `Update` hand over for that same state
with `is_enabled_rule` set to false and every other field the same. -/
theorem Delete_disables_then_removes :
    (∀ (c : APIClient) (state : scanConfigurationRuleModel) (resp : ResourceResponse),
        (Delete c state resp).resp.State = none)
    ∧ (∀ (c : APIClient) (state : scanConfigurationRuleModel) (resp : ResourceResponse)
        (adv : Option (List (String × JSON))), decodeAdvanced state = .ok adv →
        (Create c state resp).upserts = [buildRule state (tagsJSONOf state) adv]
        ∧ (Update c state resp).upserts = [buildRule state (tagsJSONOf state) adv]
        ∧ (Delete c state resp).upserts
            = [{ buildRule state (tagsJSONOf state) adv with IsEnabledRule := false }]) := by
  refine ⟨fun _ _ _ => rfl, ?_⟩
  intro c state resp adv h
  refine ⟨put_upserts_of_decode_ok c state _ adv h, put_upserts_of_decode_ok c state _ adv h, ?_⟩
  have h1 : decodeAdvanced { state with IsEnabledRule := TBool.value false } = .ok adv := h
  exact put_upserts_of_decode_ok c _ _ adv h1

/-- C6 amended, at the sample state (stored id "rule-1") and a stub server that answers
with the different id "rule-9". -/
theorem Delete_disables_then_removes_witness :
    (Delete (stubClient okBody) sampleModel (respWith sampleModel)).resp.State = none
    ∧ (Create (stubClient okBody) sampleModel (respWith sampleModel)).upserts
        = [buildRule sampleModel (tagsJSONOf sampleModel) (some [])]
    ∧ (Delete (stubClient okBody) sampleModel (respWith sampleModel)).upserts
        = [{ buildRule sampleModel (tagsJSONOf sampleModel) (some []) with
              IsEnabledRule := false }] :=
  ⟨Delete_disables_then_removes.1 _ _ _,
    (Delete_disables_then_removes.2 (stubClient okBody) sampleModel (respWith sampleModel)
      (some []) rfl).1,
    (Delete_disables_then_removes.2 (stubClient okBody) sampleModel (respWith sampleModel)
      (some []) rfl).2.2⟩

theorem sampleModel_down : upsertFails downClient
    { sampleModel with IsEnabledRule := TBool.value false } :=
  Or.inr ⟨some [], "connection refused", rfl, by rfl⟩

/-- C7 as stated fails: with a transport that refuses the connection, the disable call
of `Delete` fails and is reported, and the resource is removed from local state all the
same. -/
theorem Delete_removes_despite_failure :
    (Delete downClient sampleModel (respWith sampleModel)).resp.Diagnostics
        = [{ severity := Severity.error, summary := "Error calling Orca API",
             detail := "connection refused" }]
    ∧ (Delete downClient sampleModel (respWith sampleModel)).resp.State = none := by
  have h := put_of_call_error downClient
    { sampleModel with IsEnabledRule := TBool.value false } [] (some []) "connection refused"
    rfl (by rfl)
  refine ⟨?_, rfl⟩
  simp only [Delete, respWith, h]
  rfl

/-- C7, amended: for every state for which the disable call made by `Delete` fails,
`Delete` reports the error as a diagnostic and still removes the resource from local
state. -/
theorem Delete_failure_reported_state_removed (c : APIClient)
    (state : scanConfigurationRuleModel) (resp : ResourceResponse)
    (h : upsertFails c { state with IsEnabledRule := TBool.value false }) :
    (Delete c state resp).resp.Diagnostics.HasError = true
    ∧ (∃ summary detail,
        (Delete c state resp).resp.Diagnostics = resp.Diagnostics.AddError summary detail)
    ∧ (Delete c state resp).resp.State = none := by
  obtain ⟨_, h2, h3⟩ := put_of_upsertFails c _ resp.Diagnostics h
  exact ⟨h2, h3, rfl⟩

/-- C7 amended, at the sample state and the transport that refuses the connection. -/
theorem Delete_failure_reported_state_removed_witness :
    (Delete downClient sampleModel (respWith sampleModel)).resp.Diagnostics.HasError = true
    ∧ (Delete downClient sampleModel (respWith sampleModel)).resp.State = none :=
  ⟨(Delete_failure_reported_state_removed downClient sampleModel (respWith sampleModel)
      sampleModel_down).1,
    (Delete_failure_reported_state_removed downClient sampleModel (respWith sampleModel)
      sampleModel_down).2.2⟩

theorem malformedModel_fails (c : APIClient) : upsertFails c malformedModel :=
  Or.inl ⟨"invalid JSON text", by rfl⟩

/-- C8 as stated fails: for the plan whose advanced settings text is `{not json`, `Create`
reports the error and yet sets the response state, which was empty, to the plan; `Update`
likewise replaces the prior state by the plan. -/
theorem Create_persists_plan_despite_failure :
    (Create (stubClient okBody) malformedModel emptyResp).resp.Diagnostics.HasError = true
    ∧ (Create (stubClient okBody) malformedModel emptyResp).resp.State = some malformedModel
    ∧ (Create (stubClient okBody) malformedModel emptyResp).resp.State ≠ emptyResp.State
    ∧ (Update (stubClient okBody) malformedModel (respWith sampleModel)).resp.State
        = some malformedModel
    ∧ (Update (stubClient okBody) malformedModel (respWith sampleModel)).resp.State
        ≠ (respWith sampleModel).State := by
  have h : decodeAdvanced malformedModel = .error "invalid JSON text" := by rfl
  simp only [Create, Update, put_of_decode_error _ _ _ _ h, hasError_AddError, emptyResp,
    respWith, true_and]
  decide

/-- C8, amended: for every plan for which the upsert made by `Create` or `Update` fails,
the hook reports an error diagnostic and sets the response state to the plan exactly as it
was read, its id included; no identifier is stored. -/
theorem Create_Update_failure_state_is_plan (c : APIClient)
    (plan : scanConfigurationRuleModel) (resp : ResourceResponse) (h : upsertFails c plan) :
    (Create c plan resp).resp.Diagnostics.HasError = true
    ∧ (Create c plan resp).resp.State = some plan
    ∧ (Update c plan resp).resp.Diagnostics.HasError = true
    ∧ (Update c plan resp).resp.State = some plan := by
  obtain ⟨h1, h2, _⟩ := put_of_upsertFails c plan resp.Diagnostics h
  exact ⟨h2, by simp only [Create, h1], h2, by simp only [Update, h1]⟩

/-- C8 amended, at the plan whose advanced settings text is `{not json`. -/
theorem Create_Update_failure_state_is_plan_witness :
    (Create (stubClient okBody) malformedModel emptyResp).resp.Diagnostics.HasError = true
    ∧ (Create (stubClient okBody) malformedModel emptyResp).resp.State = some malformedModel
    ∧ (Update (stubClient okBody) malformedModel (respWith sampleModel)).resp.State
        = some malformedModel :=
  ⟨(Create_Update_failure_state_is_plan (stubClient okBody) malformedModel emptyResp
      (malformedModel_fails _)).1,
    (Create_Update_failure_state_is_plan (stubClient okBody) malformedModel emptyResp
      (malformedModel_fails _)).2.1,
    (Create_Update_failure_state_is_plan (stubClient okBody) malformedModel
      (respWith sampleModel) (malformedModel_fails _)).2.2.2⟩

/-! ## The tags member of the request body -/

theorem put_sent_subset (c : APIClient) (m : scanConfigurationRuleModel) (diags : Diagnostics)
    (req : Request) (h : req ∈ (put c m diags).sent) :
    ∃ adv, decodeAdvanced m = .ok adv
      ∧ req ∈ (PutScanConfigurationRule c (buildRule m (tagsJSONOf m) adv)).sent := by
  cases hd : decodeAdvanced m with
  | error err =>
    rw [put_of_decode_error c m diags err hd] at h
    simp at h
  | ok adv =>
    refine ⟨adv, rfl, ?_⟩
    cases hc : (PutScanConfigurationRule c (buildRule m (tagsJSONOf m) adv)).result with
    | error err =>
      rw [put_of_call_error c m diags adv err hd hc] at h
      exact h
    | ok created =>
      rw [put_of_call_ok c m diags adv created hd hc] at h
      exact h

theorem tagsJSONOf_no_known (m : scanConfigurationRuleModel)
    (h : ∀ v ∈ m.Tags.elems, v.IsNull = true ∨ v.IsUnknown = true) : tagsJSONOf m = "[]" := by
  have h2 : m.Tags.elems.foldl extractStep [] = [] := foldl_extractStep_no_known _ h
  unfold tagsJSONOf
  rw [h2]
  rfl

/-- C9 as stated fails: for the configuration without tags, the one request `put` sends
has a body with the key `tags`, whose value is the text `[]`. -/
theorem put_no_tags_sends_empty_array :
    ∃ req, (put (stubClient okBody) noTagsModel []).sent = [req]
      ∧ req.body.hasKey "tags"
      ∧ ("tags", DocValue.raw "[]") ∈ req.body := by
  have hput := put_of_call_ok (stubClient okBody) noTagsModel [] (some [])
    { ScanConfigurationRule.zero with RuleID := "rule-9" } rfl (by rfl)
  obtain ⟨payload, hp⟩ : ∃ payload,
      marshalRule (buildRule noTagsModel (tagsJSONOf noTagsModel) (some [])) = .ok payload :=
    ⟨_, rfl⟩
  have hsent := sent_of_url_ok (stubClient okBody) _ payload hp rfl
  have hmem : ("tags", DocValue.raw "[]") ∈ payload := by
    rw [mem_marshalRule _ payload hp]
    exact Or.inr (Or.inr (Or.inr (Or.inr (Or.inr (Or.inr (Or.inr
      (Or.inl ⟨rfl, "[]", rfl, by decide, rfl⟩)))))))
  refine ⟨_, by rw [hput, hsent], ?_, hmem⟩
  exact (hasKey_iff _ _).2 ⟨_, hmem⟩

/-- C9, amended: for every configuration whose tags list is absent, empty, or holds only
null and unknown elements, every rule `put` hands to the upsert operation carries the tags
bytes `[]`, and every request body it sends has the key `tags` with the value `[]` (the
empty array, never null and never left out); when the advanced settings decode and the
URL is accepted, exactly one such request is sent. -/
theorem put_empty_tags_sent_as_array (c : APIClient) (m : scanConfigurationRuleModel)
    (diags : Diagnostics) (h : ∀ v ∈ m.Tags.elems, v.IsNull = true ∨ v.IsUnknown = true) :
    (∀ rule ∈ (put c m diags).upserts, rule.Tags = some "[]")
    ∧ (∀ req ∈ (put c m diags).sent,
        req.body.hasKey "tags" ∧ ∀ v, ("tags", v) ∈ req.body ↔ v = DocValue.raw "[]")
    ∧ (∀ adv, decodeAdvanced m = .ok adv → c.urlError (rulesURL c) = none →
        ∃ req, (put c m diags).sent = [req]) := by
  have ht := tagsJSONOf_no_known m h
  have hbody : ∀ adv (doc : Doc), marshalRule (buildRule m (tagsJSONOf m) adv) = .ok doc →
      ∀ v, ("tags", v) ∈ doc ↔ v = DocValue.raw "[]" := by
    intro adv doc hd v
    rw [mem_marshalRule _ doc hd]
    simp only [String.reduceEq, false_and, true_and, false_or, or_false, ht, buildRule,
      Option.some.injEq]
    constructor
    · rintro ⟨bytes, rfl, _, rfl⟩
      rfl
    · rintro rfl
      exact ⟨"[]", rfl, by decide, rfl⟩
  have hok : ∀ adv, ∃ doc, marshalRule (buildRule m (tagsJSONOf m) adv) = .ok doc := by
    intro adv
    apply marshalRule_ok_of_tags
    intro bytes hb
    simp only [buildRule, ht, Option.some.injEq] at hb
    subst hb
    exact Or.inr (by decide)
  refine ⟨?_, ?_, ?_⟩
  · intro rule hr
    cases hd : decodeAdvanced m with
    | error err =>
      rw [put_of_decode_error c m diags err hd] at hr
      simp at hr
    | ok adv =>
      rw [put_upserts_of_decode_ok c m diags adv hd, List.mem_singleton] at hr
      rw [hr]
      simp only [buildRule, ht]
  · intro req hreq
    obtain ⟨adv, _, hs⟩ := put_sent_subset c m diags req hreq
    have hm := sent_body c _ req hs
    exact ⟨(hasKey_iff _ _).2 ⟨_, (hbody adv _ hm _).2 rfl⟩, hbody adv _ hm⟩
  · intro adv hd hu
    obtain ⟨doc, hdoc⟩ := hok adv
    have hs := sent_of_url_ok c _ doc hdoc hu
    refine ⟨{ method := "PUT", url := rulesURL c, body := doc }, ?_⟩
    cases hc : (PutScanConfigurationRule c (buildRule m (tagsJSONOf m) adv)).result with
    | error err => rw [put_of_call_error c m diags adv err hd hc, hs]
    | ok created => rw [put_of_call_ok c m diags adv created hd hc, hs]

/-- C9 amended, at the model whose tags are one null and one unknown element. -/
theorem put_empty_tags_sent_as_array_witness :
    (∀ rule ∈ (put (stubClient okBody)
        { sampleModel with Tags := some [TString.null, TString.unknown] } []).upserts,
        rule.Tags = some "[]")
    ∧ ∃ req, (put (stubClient okBody)
        { sampleModel with Tags := some [TString.null, TString.unknown] } []).sent = [req] :=
  ⟨(put_empty_tags_sent_as_array (stubClient okBody)
      { sampleModel with Tags := some [TString.null, TString.unknown] } [] (by decide)).1,
    (put_empty_tags_sent_as_array (stubClient okBody)
      { sampleModel with Tags := some [TString.null, TString.unknown] } [] (by decide)).2.2
      (some []) rfl rfl⟩

end OrcaScanConfig
